import Mathlib

/-!
Verification development for the cart-pole simulator and kernel regression
library in `CartPole.py`.

The numeric code is embedded shallowly over the real numbers: every array is a
function out of a `Fin` type, every mutable field of the `CartPole` class is a
field of the `CPState` structure, and in-place mutation becomes explicit state
passing.  While loops over the reals (`_remap_angle`) are embedded as their exit
state: the least iteration count after which the loop guard fails.
-/

open Real

/-! ### Physical constants (the fields set in `CartPole.__init__`) -/

/-- Constant `self.pole_length = 0.5` from `CartPole.__init__`. -/
def pole_length : ℝ := 0.5

/-- Constant `self.pole_mass = 0.5` from `CartPole.__init__`. -/
def pole_mass : ℝ := 0.5

/-- Constant `self.mu_c = 0.001` (cart friction) from `CartPole.__init__`. -/
def mu_c : ℝ := 0.001

/-- Constant `self.mu_p = 0.001` (pole friction) from `CartPole.__init__`. -/
def mu_p : ℝ := 0.001

/-- Constant `self.sim_steps = 50` (Euler substeps per `performAction` call). -/
def sim_steps : ℕ := 50

/-- Constant `self.delta_time = 0.05` from `CartPole.__init__`. -/
def delta_time : ℝ := 0.05

/-- Constant `self.max_force = 20.` from `CartPole.__init__`. -/
def max_force : ℝ := 20

/-- Constant `self.gravity = 9.8` from `CartPole.__init__`. -/
def gravity : ℝ := 9.8

/-- Constant `self.cart_mass = 0.5` from `CartPole.__init__`. -/
def cart_mass : ℝ := 0.5

/-! ### The mutable state of a `CartPole` instance -/

/-- The four mutable state fields of the `CartPole` class:
`cart_location`, `cart_velocity`, `pole_angle`, `pole_velocity`. -/
@[ext]
structure CPState where
  cart_location : ℝ
  cart_velocity : ℝ
  pole_angle : ℝ
  pole_velocity : ℝ

/-- Substep length `dt = self.delta_time / float(self.sim_steps)` computed in
the integration loop of `CartPole.performAction`. -/
noncomputable def dt : ℝ := delta_time / (sim_steps : ℝ)

/-- The loop-local variable `cart_accel` of `CartPole.performAction`, computed
from the state at the start of the substep. -/
noncomputable def cart_accel (force : ℝ) (st : CPState) : ℝ :=
  (2.0 * (pole_length * pole_mass * st.pole_velocity ^ 2 * Real.sin st.pole_angle
      + force - mu_c * st.cart_velocity)
    - 3.0 * pole_mass * gravity * Real.cos st.pole_angle * Real.sin st.pole_angle)
  / (4.0 * (cart_mass + pole_mass) - 3.0 * pole_mass * (Real.cos st.pole_angle) ^ 2)

/-- The loop-local variable `pole_accel` of `CartPole.performAction`, computed
from the state at the start of the substep. -/
noncomputable def pole_accel (force : ℝ) (st : CPState) : ℝ :=
  (-3.0 * Real.cos st.pole_angle *
      (pole_length / 2.0 * pole_mass * st.pole_velocity ^ 2 * Real.sin st.pole_angle
        + force - mu_c * st.cart_velocity)
    + 6.0 * (cart_mass + pole_mass) / (pole_mass * pole_length) *
      (pole_mass * gravity * Real.sin st.pole_angle
        - 2.0 / pole_length * mu_p * st.pole_velocity))
  / (4.0 * (cart_mass + pole_mass) - 3.0 * pole_mass * (Real.cos st.pole_angle) ^ 2)

/-- One iteration of the Euler integration loop in `CartPole.performAction`.
The updates happen in the source's order (semi-implicit Euler): the two
velocities are updated first from the accelerations computed on the old state,
then `pole_angle` uses the new `pole_velocity` and `cart_location` the new
`cart_velocity`. -/
noncomputable def eulerSubstep (force : ℝ) (st : CPState) : CPState where
  cart_location := st.cart_location + dt * (st.cart_velocity + dt * cart_accel force st)
  cart_velocity := st.cart_velocity + dt * cart_accel force st
  pole_angle := st.pole_angle + dt * (st.pole_velocity + dt * pole_accel force st)
  pole_velocity := st.pole_velocity + dt * pole_accel force st

/-- `CartPole.performAction(action)`: the force is the saturation
`max_force * tanh(action / max_force)` and the Euler substep runs
`sim_steps` times. -/
noncomputable def performAction (st : CPState) (action : ℝ) : CPState :=
  (eulerSubstep (max_force * Real.tanh (action / max_force)))^[sim_steps] st

/-! ### The angle normalizer `_remap_angle` -/

/-- Exit count of the first while loop of `_remap_angle`
(`while theta < -np.pi: theta += 2.*np.pi`): the least number of iterations
after which the guard fails. -/
noncomputable def remapUpCount (θ : ℝ) : ℕ :=
  sInf {n : ℕ | ¬ θ + 2 * π * n < -π}

/-- State of `theta` after the first while loop of `_remap_angle`. -/
noncomputable def remapUp (θ : ℝ) : ℝ := θ + 2 * π * remapUpCount θ

/-- Exit count of the second while loop of `_remap_angle`
(`while theta > np.pi: theta -= 2.*np.pi`). -/
noncomputable def remapDownCount (θ : ℝ) : ℕ :=
  sInf {n : ℕ | ¬ θ - 2 * π * n > π}

/-- State of `theta` after the second while loop of `_remap_angle`. -/
noncomputable def remapDown (θ : ℝ) : ℝ := θ - 2 * π * remapDownCount θ

/-- The function `_remap_angle(theta)`: run the add-2π loop, then the
subtract-2π loop, and return the final value of `theta`. -/
noncomputable def remapAngle (θ : ℝ) : ℝ := remapDown (remapUp θ)

/-! ### The loss function `_loss` -/

/-- The pair of per-dimension scale coefficients `alpha=[1,1,0.5,0.5]`, the
default second argument of `loss`. -/
noncomputable def lossDefaultScale : Fin 4 → ℝ := ![1, 1, 0.5, 0.5]

/-- The function `_loss(state, sig_)`: truncates the state to its first four
components (`state = state[:4]`) and returns
`1 - exp(-dot(state/sig_, state/sig_)/2)`.  The input may carry a trailing
action component, which is ignored. -/
noncomputable def lossFn (state : Fin 5 → ℝ) (sig : Fin 4 → ℝ) : ℝ :=
  1 - Real.exp (-(∑ i : Fin 4, (state ⟨i.1, by omega⟩ / sig i) ^ 2) / 2.0)

/-- The function `loss(state)` with its default scale vector. -/
noncomputable def lossDefault (state : Fin 5 → ℝ) : ℝ := lossFn state lossDefaultScale

/-! ### The kernel function -/

/-- A training or query point: 4 state components followed by the action. -/
abbrev Vec5 := Fin 5 → ℝ

/-- The function `kernel(X, X_dash, sigma)`:
`exp(-sum(squared_numerator / (2*sigma**2)))`, where the squared numerator is
`(X[i]-X_dash[i])**2` except at the angle index `i = 2`, where it is
`sin((X[2]-X_dash[2])/2)**2`. -/
noncomputable def kernelFn (X Xdash sigma : Vec5) : ℝ :=
  Real.exp (-(∑ i : Fin 5,
    (if i = 2 then (Real.sin ((X i - Xdash i) / 2)) ^ 2 else (X i - Xdash i) ^ 2)
      / (2 * (sigma i) ^ 2)))

/-! ### The kernel regression engine -/

/-- The function `generate_K(X, M, sigma)`: the row built for the training
point `X[i]` is `[kernel(X[i], RBF_x, sigma) for RBF_x in X[M]]`, so entry
`(i, j)` is the kernel of `X[i]` against the `j`-th selected basis point. -/
noncomputable def generate_K {N m : ℕ} (X : Fin N → Vec5) (M : Fin m → Fin N)
    (sigma : Vec5) : Matrix (Fin N) (Fin m) ℝ :=
  Matrix.of fun i j => kernelFn (X i) (X (M j)) sigma

/-- Squared Frobenius norm of a real matrix, used to say when a weight matrix
is a least-squares solution of a linear system. -/
def frobSq {a b : ℕ} (A : Matrix (Fin a) (Fin b) ℝ) : ℝ :=
  ∑ i, ∑ j, (A i j) ^ 2

/-- `alpha` is a least-squares solution of `A * alpha = B`: no other matrix
gives a smaller residual in the Frobenius norm. -/
def IsLSQSolution {m b : ℕ} (A : Matrix (Fin m) (Fin m) ℝ)
    (B : Matrix (Fin m) (Fin b) ℝ) (alpha : Matrix (Fin m) (Fin b) ℝ) : Prop :=
  ∀ alpha' : Matrix (Fin m) (Fin b) ℝ, frobSq (A * alpha - B) ≤ frobSq (A * alpha' - B)

/-- The function `train_alpha(x_train, y_train, no_RBC, sigma, n,
train_proportion, kernel, lam)`.  The random draw
`M_vals = np.random.randint(...)` and the external least-squares routine
`np.linalg.lstsq` are the two collaborators outside this file's source, so the
embedding takes the drawn index vector `M_vals` and the solver as parameters.
Everything else follows the source: `X_i_vals = x_train[M_vals]`,
`KnM_ = generate_K(x_train, M_vals, sigma)`,
`KMM_ = generate_K(X_i_vals, range(M_vals.size), sigma)`, and
`alpha = lstsq(KnM_.T @ KnM_ + lam*KMM_, KnM_.T @ y_train)[0]`. -/
noncomputable def train_alpha {N m : ℕ}
    (lstsq : Matrix (Fin m) (Fin m) ℝ → Matrix (Fin m) (Fin 4) ℝ →
      Matrix (Fin m) (Fin 4) ℝ)
    (x_train : Fin N → Vec5) (y_train : Matrix (Fin N) (Fin 4) ℝ)
    (M_vals : Fin m → Fin N) (sigma : Vec5) (lam : ℝ) :
    Matrix (Fin m) (Fin 4) ℝ × (Fin m → Vec5) :=
  let X_i_vals : Fin m → Vec5 := fun j => x_train (M_vals j)
  let KnM : Matrix (Fin N) (Fin m) ℝ := generate_K x_train M_vals sigma
  let KMM : Matrix (Fin m) (Fin m) ℝ := generate_K X_i_vals (fun j => j) sigma
  (lstsq (KnM.transpose * KnM + lam • KMM) (KnM.transpose * y_train), X_i_vals)

/-- The fitted parameters consumed by `predict`: the weight matrix `alpha`,
the basis points `X_i_vals` and the bandwidth vector `sigma`.  In the Python
code these are numpy arrays passed by reference; the embedding threads them
through `predict` as explicit state so that (absence of) in-place mutation is
visible in the return value. -/
structure FitParams (m : ℕ) where
  alpha : Matrix (Fin m) (Fin 4) ℝ
  X_i_vals : Fin m → Vec5
  sigma : Vec5

/-- The function `predict(x_test, alpha, X_i_vals, sigma)` on a single
5-component query (`x_test.size > 4`, `x_test.ndim == 1`): the kernel vector
`KnM_test` of the query against every basis point is built row by row, the
prediction is `KnM_test.T @ alpha`, and the fitted parameters are returned
unchanged — the source never writes into `alpha`, `X_i_vals` or `sigma`. -/
noncomputable def predictRun {m : ℕ} (x_test : Vec5) (p : FitParams m) :
    (Fin 4 → ℝ) × FitParams m :=
  let KnM_test : Fin m → ℝ := fun i => kernelFn (p.X_i_vals i) x_test p.sigma
  (fun j => ∑ i, KnM_test i * p.alpha i j, p)

/-! ### The rollout operation `move_cart` -/

/-- A row of `x_history`: the four `CartPole` state fields together with the
action, as unpacked and repacked by `move_cart`. -/
abbrev SA := CPState × ℝ

/-- The result of `move_cart`: either the single row `x_history[-1]`
(a 5-vector) or the whole matrix `x_history`. -/
inductive MoveCartResult where
  | row (r : SA)
  | matrix (m : List SA)

/-- The two ways `move_cart` fails on its default flags: the explicit
`assert steps != 4` at entry, and the `NameError`/`UnboundLocalError` raised by
`len(x_history)` when the loop body that first binds `x_history` never ran. -/
inductive MoveCartError where
  | assertionError
  | nameError

/-- The state of the `move_cart` loop after `k` of its `steps` iterations:
the `CartPole` instance's state, paired with the optional `x_history`
accumulator (`none` mirrors the variable being still unbound; the try/except
around `np.vstack` seeds it with the pair `(initial_x, new_row)` on the first
iteration and appends one row afterwards).  Flags are at their defaults
(`remap_angle=False`, `noisy_dynamics=False`), so the unpacked `action` never
changes. -/
noncomputable def moveCartIter (x0 : SA) : ℕ → CPState × Option (List SA)
  | 0 => (x0.1, none)
  | k + 1 =>
    let p := moveCartIter x0 k
    let st' := performAction p.1 x0.2
    (st', match p.2 with
      | none => some [x0, (st', x0.2)]
      | some h => some (h ++ [(st', x0.2)]))

/-- The function `move_cart(initial_x, steps)` on default flags.  It asserts
`steps != 4`, runs the loop, and then branches on `len(x_history)`: every
reachable history has `steps+1` rows, so `len(x_history) != 5` holds for all
allowed step counts and only the last row `x_history[-1]` is returned; with
`steps=0` the history was never bound and the length test itself fails. -/
noncomputable def move_cart (x0 : SA) (steps : ℕ) :
    Except MoveCartError MoveCartResult :=
  if steps = 4 then .error .assertionError
  else
    match (moveCartIter x0 steps).2 with
    | none => .error .nameError
    | some h =>
      if h.length ≠ 5 then .ok (.row (h.getLastD x0)) else .ok (.matrix h)

/-- The row of `x_history` recorded after `j` calls to `performAction`. -/
noncomputable def mcRow (x0 : SA) (j : ℕ) : SA :=
  ((fun s => performAction s x0.2)^[j] x0.1, x0.2)

/-- The value of `x_history` after `k ≥ 1` loop iterations of `move_cart`:
the initial row followed by the rows after 1, …, k actions. -/
noncomputable def histList (x0 : SA) : ℕ → List SA
  | 0 => [x0]
  | k + 1 => histList x0 k ++ [mcRow x0 (k + 1)]

/-- A least-squares routine for the empty basis case: with no basis points
every candidate has residual zero, so the zero matrix meets the contract. -/
noncomputable def emptyLstsq :
    Matrix (Fin 0) (Fin 0) ℝ → Matrix (Fin 0) (Fin 4) ℝ →
      Matrix (Fin 0) (Fin 4) ℝ :=
  fun _ _ => 0

/-- Concrete one-point training set for the C7 witness. -/
noncomputable def c7X : Fin 1 → Vec5 := fun _ _ => 0

/-- Concrete targets for the C7 witness. -/
noncomputable def c7Y : Matrix (Fin 1) (Fin 4) ℝ := 0

/-- Concrete (empty) basis index draw for the C7 witness. -/
def c7M : Fin 0 → Fin 1 := fun j => j.elim0

/-- Concrete unit bandwidth vector for the C7 witness. -/
noncomputable def c7sigma : Vec5 := fun _ => 1

/-- Interval invariant after `k` zero-force substeps from (0, 0, 3.0, 0):
the cart has moved right by at least `k(k+1)·2·10⁻⁷`, its velocity lies in
`[0.4, 0.9]·k/1000`, the pole angle has grown from 3 by at least
`1.75·k(k+1)·10⁻⁶` while staying below `3 + 0.35·k/1000`, and the pole
velocity lies in `[3.5, 7]·k/1000`. -/
abbrev C1Inv (k : ℕ) (st : CPState) : Prop :=
  ((k * (k + 1) : ℕ) : ℝ) / 5000000 ≤ st.cart_location ∧
  2 / 5 * ((k : ℝ) / 1000) ≤ st.cart_velocity ∧
  st.cart_velocity ≤ 9 / 10 * ((k : ℝ) / 1000) ∧
  3 + 7 * ((k * (k + 1) : ℕ) : ℝ) / 4000000 ≤ st.pole_angle ∧
  st.pole_angle ≤ 3 + 7 / 20 * ((k : ℝ) / 1000) ∧
  7 / 2 * ((k : ℝ) / 1000) ≤ st.pole_velocity ∧
  st.pole_velocity ≤ 7 * ((k : ℝ) / 1000)

/-! ### Helper lemmas: zero action and the down-hanging equilibrium -/

/-- With `action = 0` the saturated force `max_force * tanh(0/max_force)` is
exactly zero. -/
lemma force_of_zero_action : max_force * Real.tanh (0 / max_force) = 0 := by
  rw [zero_div, Real.tanh_zero, mul_zero]

/-- `performAction` with zero action is fifty zero-force Euler substeps. -/
lemma performAction_zero (st : CPState) :
    performAction st 0 = (eulerSubstep 0)^[50] st := by
  rw [performAction, force_of_zero_action]
  rfl

/-- At the down-hanging state, `sin(pole_angle) = 0` makes both accelerations
vanish, so one Euler substep with zero force changes nothing. -/
lemma eulerSubstep_pi_fixed :
    eulerSubstep 0 (⟨0, 0, π, 0⟩ : CPState) = ⟨0, 0, π, 0⟩ := by
  have hca : cart_accel 0 (⟨0, 0, π, 0⟩ : CPState) = 0 := by
    simp [cart_accel, Real.sin_pi]
  have hpa : pole_accel 0 (⟨0, 0, π, 0⟩ : CPState) = 0 := by
    simp [pole_accel, Real.sin_pi]
  ext <;> simp [eulerSubstep, hca, hpa]

/-- The down-hanging state is a fixed point of a full `performAction 0` call. -/
lemma performAction_pi_fixed :
    performAction (⟨0, 0, π, 0⟩ : CPState) 0 = ⟨0, 0, π, 0⟩ := by
  rw [performAction_zero]
  exact Function.iterate_fixed eulerSubstep_pi_fixed 50

/-- C5: The down-hanging configuration is an exact fixed point: starting from
state (0, 0, π, 0), any number of `performAction(0)` calls (zero force) leaves
the state exactly (0, 0, π, 0) under exact real arithmetic, because
`sin π = 0` makes both computed accelerations zero in every substep. -/
theorem C5_equilibrium_fixed_point (n : ℕ) :
    (fun st => performAction st 0)^[n] (⟨0, 0, π, 0⟩ : CPState) = ⟨0, 0, π, 0⟩ :=
  Function.iterate_fixed performAction_pi_fixed n

/-! ### C6: kernel periodicity in the angle component -/

/-- Shifting the argument of the half-angle sine by a full period flips its
sign, so its square is unchanged. -/
lemma sin_sq_half_shift (t : ℝ) :
    Real.sin ((t + 2 * π) / 2) ^ 2 = Real.sin (t / 2) ^ 2 := by
  have h : (t + 2 * π) / 2 = t / 2 + π := by ring
  rw [h, Real.sin_add_pi, neg_sq]

/-- C6: for every pair of 5-vectors and every sigma with nonzero components,
adding exactly 2π to the angle component (index 2) of `X` leaves
`kernel(X, X', sigma)` unchanged; and when the angle components differ by
exactly 2π, the kernel equals its value with that component's difference set
to 0. -/
theorem C6_kernel_angle_periodic (x xd sigma : Vec5) (hs : ∀ i, sigma i ≠ 0) :
    kernelFn (Function.update x 2 (x 2 + 2 * π)) xd sigma = kernelFn x xd sigma ∧
    (x 2 - xd 2 = 2 * π →
      kernelFn x xd sigma = kernelFn (Function.update x 2 (xd 2)) xd sigma) := by
  constructor
  · unfold kernelFn
    congr 2
    apply Finset.sum_congr rfl
    intro i _
    rcases eq_or_ne i 2 with hi | hi
    · subst hi
      rw [if_pos rfl, Function.update_same]
      have h : x 2 + 2 * π - xd 2 = (x 2 - xd 2) + 2 * π := by ring
      rw [h, sin_sq_half_shift, if_pos rfl]
    · rw [if_neg hi, if_neg hi, Function.update_noteq hi]
  · intro hd
    unfold kernelFn
    congr 2
    apply Finset.sum_congr rfl
    intro i _
    rcases eq_or_ne i 2 with hi | hi
    · subst hi
      rw [if_pos rfl, if_pos rfl, Function.update_same, hd, sub_self]
      have h2 : (2 * π) / 2 = π := by ring
      rw [h2, Real.sin_pi, zero_div, Real.sin_zero]
    · rw [if_neg hi, if_neg hi, Function.update_noteq hi]

/-- Witness for C6 at the all-zero vectors and the all-ones bandwidth. -/
theorem C6_witness :
    (∀ i : Fin 5, (fun _ : Fin 5 => (1 : ℝ)) i ≠ 0) ∧
    kernelFn
        (Function.update (fun _ : Fin 5 => (0 : ℝ)) 2
          ((fun _ : Fin 5 => (0 : ℝ)) 2 + 2 * π))
        (fun _ => 0) (fun _ => 1) =
      kernelFn (fun _ => 0) (fun _ => 0) (fun _ => 1) :=
  ⟨fun _ => one_ne_zero,
   (C6_kernel_angle_periodic (fun _ => 0) (fun _ => 0) (fun _ => 1)
     (fun _ => one_ne_zero)).1⟩

/-! ### C8: range of the loss function -/

/-- C8: for every state vector and every scale vector with nonzero components,
the loss `1 - exp(-0.5 * Σ (state_i/scale_i)^2)` over the first four
components lies in `[0, 1)` and vanishes exactly when those four components
are all zero. -/
theorem C8_loss_range (state : Fin 5 → ℝ) (sig : Fin 4 → ℝ)
    (hs : ∀ i, sig i ≠ 0) :
    (0 ≤ lossFn state sig ∧ lossFn state sig < 1) ∧
    (lossFn state sig = 0 ↔ ∀ i : Fin 4, state ⟨i.1, by omega⟩ = 0) := by
  have hq0 : 0 ≤ ∑ i : Fin 4, (state ⟨i.1, by omega⟩ / sig i) ^ 2 :=
    Finset.sum_nonneg fun i _ => sq_nonneg _
  unfold lossFn
  refine ⟨⟨?_, ?_⟩, ?_⟩
  · have h1 : Real.exp (-(∑ i : Fin 4, (state ⟨i.1, by omega⟩ / sig i) ^ 2) / 2.0) ≤ 1 :=
      Real.exp_le_one_iff.mpr (by linarith)
    linarith
  · have h2 := Real.exp_pos (-(∑ i : Fin 4, (state ⟨i.1, by omega⟩ / sig i) ^ 2) / 2.0)
    linarith
  · rw [sub_eq_zero, eq_comm, Real.exp_eq_one_iff]
    constructor
    · intro h i
      have hq : (∑ i : Fin 4, (state ⟨i.1, by omega⟩ / sig i) ^ 2) = 0 := by
        linarith
      have hterm := (Finset.sum_eq_zero_iff_of_nonneg
        (fun i _ => sq_nonneg (state ⟨i.1, by omega⟩ / sig i))).mp hq i (Finset.mem_univ i)
      have hdiv : state ⟨i.1, by omega⟩ / sig i = 0 := sq_eq_zero_iff.mp hterm
      exact (div_eq_zero_iff.mp hdiv).resolve_right (hs i)
    · intro h
      have hq : (∑ i : Fin 4, (state ⟨i.1, by omega⟩ / sig i) ^ 2) = 0 :=
        Finset.sum_eq_zero fun i _ => by rw [h i, zero_div]; ring
      rw [hq]
      norm_num

/-- Witness for C8 at the zero state and the default scale `[1,1,0.5,0.5]`. -/
theorem C8_witness :
    (∀ i, lossDefaultScale i ≠ 0) ∧
    ((0 ≤ lossFn (fun _ => 0) lossDefaultScale ∧
        lossFn (fun _ => 0) lossDefaultScale < 1) ∧
      (lossFn (fun _ => 0) lossDefaultScale = 0 ↔
        ∀ i : Fin 4, (fun _ : Fin 5 => (0 : ℝ)) ⟨i.1, by omega⟩ = 0)) := by
  have hs : ∀ i, lossDefaultScale i ≠ 0 := by
    intro i
    fin_cases i <;> norm_num [lossDefaultScale]
  exact ⟨hs, C8_loss_range (fun _ => 0) lossDefaultScale hs⟩

/-! ### C9: prediction does not mutate the fitted parameters -/

/-- C9: for every query input, `predict` returns the fitted parameters
`alpha`, `X_i_vals` and `sigma` unchanged (the embedding threads them as
explicit state, and the source performs no in-place write), and its numeric
result is the kernel vector against the basis points contracted with
`alpha`. -/
theorem C9_predict_immutable {m : ℕ} (x_test : Vec5) (p : FitParams m) :
    (predictRun x_test p).2 = p ∧
    (predictRun x_test p).1 =
      fun j => ∑ i, kernelFn (p.X_i_vals i) x_test p.sigma * p.alpha i j :=
  ⟨rfl, rfl⟩

/-! ### C7: the trained weights solve the regularized normal equations -/

/-- C7: for every training set, drawn basis index vector, bandwidth vector and
regularization weight, and for every least-squares routine meeting the
`np.linalg.lstsq` contract (its result minimizes the Frobenius residual of the
system it is given), the weight matrix returned by `train_alpha` is a
least-squares solution of `(K_nm^T K_nm + lam * K_mm) alpha = K_nm^T Y`,
where `K_nm` is the kernel matrix of all training points against the drawn
basis points and `K_mm` that of the basis points against themselves. -/
theorem C7_train_alpha_lsq {N m : ℕ}
    (lstsq : Matrix (Fin m) (Fin m) ℝ → Matrix (Fin m) (Fin 4) ℝ →
      Matrix (Fin m) (Fin 4) ℝ)
    (hlstsq : ∀ A B, IsLSQSolution A B (lstsq A B))
    (x_train : Fin N → Vec5) (y_train : Matrix (Fin N) (Fin 4) ℝ)
    (M_vals : Fin m → Fin N) (sigma : Vec5) (lam : ℝ) :
    IsLSQSolution
      ((generate_K x_train M_vals sigma).transpose * generate_K x_train M_vals sigma
        + lam • generate_K (fun j => x_train (M_vals j)) (fun j => j) sigma)
      ((generate_K x_train M_vals sigma).transpose * y_train)
      (train_alpha lstsq x_train y_train M_vals sigma lam).1 :=
  hlstsq _ _


/-- Witness for C7: one training point, an empty basis draw, unit bandwidths
and the default regularization `lam = 0.00001`. -/
theorem C7_witness :
    (∀ A B, IsLSQSolution A B (emptyLstsq A B)) ∧
    IsLSQSolution
      ((generate_K c7X c7M c7sigma).transpose * generate_K c7X c7M c7sigma
        + (0.00001 : ℝ) • generate_K (fun j => c7X (c7M j)) (fun j => j) c7sigma)
      ((generate_K c7X c7M c7sigma).transpose * c7Y)
      (train_alpha emptyLstsq c7X c7Y c7M c7sigma 0.00001).1 := by
  have h : ∀ A B, IsLSQSolution A B (emptyLstsq A B) := by
    intro A B alpha'
    simp [frobSq]
  exact ⟨h, C7_train_alpha_lsq emptyLstsq h c7X c7Y c7M c7sigma 0.00001⟩

/-! ### Lemmas about the `move_cart` loop -/

/-- The `CartPole` state after `k` loop iterations is `k` applications of
`performAction` with the unpacked action. -/
lemma moveCartIter_fst (x0 : SA) (k : ℕ) :
    (moveCartIter x0 k).1 = (fun s => performAction s x0.2)^[k] x0.1 := by
  induction k with
  | zero => rfl
  | succ k ih =>
    rw [Function.iterate_succ_apply', ← ih]
    rfl

/-- After at least one iteration, `x_history` is bound and holds the initial
row followed by the rows after 1, …, k actions. -/
lemma moveCartIter_snd (x0 : SA) (k : ℕ) (hk : 1 ≤ k) :
    (moveCartIter x0 k).2 = some (histList x0 k) := by
  induction k with
  | zero => omega
  | succ k ih =>
    rcases Nat.eq_zero_or_pos k with hk0 | hk1
    · subst hk0
      show (moveCartIter x0 1).2 = some (histList x0 1)
      have h1 : mcRow x0 1 = (performAction x0.1 x0.2, x0.2) := by
        rw [mcRow, Function.iterate_one]
      simp [moveCartIter, histList, h1]
    · have ih' := ih hk1
      show (moveCartIter x0 (k + 1)).2 = some (histList x0 (k + 1))
      rw [moveCartIter]
      rw [histList]
      have hfst : performAction (moveCartIter x0 k).1 x0.2 = (mcRow x0 (k + 1)).1 := by
        rw [moveCartIter_fst, mcRow, Function.iterate_succ_apply']
      simp only [ih', hfst]
      rfl

/-- `x_history` after `k` iterations has `k + 1` rows. -/
lemma histList_length (x0 : SA) (k : ℕ) : (histList x0 k).length = k + 1 := by
  induction k with
  | zero => rfl
  | succ k ih => simp [histList, ih]

/-- `x_history` always starts with the initial row. -/
lemma histList_cons (x0 : SA) (k : ℕ) : ∃ t, histList x0 k = x0 :: t := by
  induction k with
  | zero => exact ⟨[], rfl⟩
  | succ k ih =>
    obtain ⟨t, ht⟩ := ih
    exact ⟨t ++ [mcRow x0 (k + 1)], by rw [histList, ht]; rfl⟩

/-- The last row of `x_history` is the state after all `k` actions. -/
lemma histList_getLastD (x0 : SA) (k : ℕ) (hk : 1 ≤ k) :
    (histList x0 k).getLastD x0 = mcRow x0 k := by
  cases k with
  | zero => omega
  | succ k => rw [histList]; simp

/-- On the allowed step counts (`steps ≥ 1`, `steps ≠ 4`), `move_cart`
returns only the final `(state, action)` row. -/
lemma move_cart_eq_row (x0 : SA) (steps : ℕ) (h1 : 1 ≤ steps) (h4 : steps ≠ 4) :
    move_cart x0 steps = .ok (.row (mcRow x0 steps)) := by
  rw [move_cart, if_neg h4]
  rw [moveCartIter_snd x0 steps h1]
  have hlen : (histList x0 steps).length ≠ 5 := by
    rw [histList_length]; omega
  simp only [hlen, if_pos, histList_getLastD x0 steps h1]
  rw [if_pos hlen]

/-! ### C2: what `move_cart` actually returns -/

/-- C2 (amended): for every initial `(state, action)` pair and every allowed
step count (`steps ≥ 1` and `steps ≠ 4`), `move_cart` builds an internal
trajectory `x_history` of length `steps + 1` whose first row is the initial
pair, but — because `len(x_history) != 5` holds for every allowed step
count — it returns only the final `(state, action)` row `x_history[-1]`,
not the trajectory. -/
theorem C2_rollout_returns_last_row (x0 : SA) (steps : ℕ)
    (h1 : 1 ≤ steps) (h4 : steps ≠ 4) :
    (moveCartIter x0 steps).2 = some (histList x0 steps) ∧
    (histList x0 steps).length = steps + 1 ∧
    (histList x0 steps).head? = some x0 ∧
    move_cart x0 steps = .ok (.row (mcRow x0 steps)) := by
  obtain ⟨t, ht⟩ := histList_cons x0 steps
  exact ⟨moveCartIter_snd x0 steps h1, histList_length x0 steps,
    by rw [ht]; rfl, move_cart_eq_row x0 steps h1 h4⟩

/-- Counterexample to C2 as stated: from the down-hanging initial pair with
one step, `move_cart` returns the single row `x_history[-1]` and not a
sequence (the matrix branch is never taken), so the result is not the
whole trajectory of length `steps + 1`. -/
theorem C2_counterexample :
    move_cart ((⟨0, 0, π, 0⟩ : CPState), 0) 1 =
      .ok (.row ((⟨0, 0, π, 0⟩ : CPState), 0)) ∧
    ∀ m : List SA,
      move_cart ((⟨0, 0, π, 0⟩ : CPState), 0) 1 ≠ .ok (.matrix m) := by
  have h := move_cart_eq_row ((⟨0, 0, π, 0⟩ : CPState), 0) 1
    (by norm_num) (by norm_num)
  have hrow : mcRow ((⟨0, 0, π, 0⟩ : CPState), 0) 1 = ((⟨0, 0, π, 0⟩ : CPState), 0) := by
    rw [mcRow, Function.iterate_one, performAction_pi_fixed]
  rw [hrow] at h
  refine ⟨h, fun m hm => ?_⟩
  rw [h] at hm
  simp at hm

/-- Witness for C2 (amended) at the down-hanging pair with `steps = 2`. -/
theorem C2_witness :
    (1 ≤ 2 ∧ (2 : ℕ) ≠ 4) ∧
    ((moveCartIter ((⟨0, 0, π, 0⟩ : CPState), 0) 2).2 =
        some (histList ((⟨0, 0, π, 0⟩ : CPState), 0) 2) ∧
      (histList ((⟨0, 0, π, 0⟩ : CPState), 0) 2).length = 2 + 1 ∧
      (histList ((⟨0, 0, π, 0⟩ : CPState), 0) 2).head? =
        some ((⟨0, 0, π, 0⟩ : CPState), 0) ∧
      move_cart ((⟨0, 0, π, 0⟩ : CPState), 0) 2 =
        .ok (.row (mcRow ((⟨0, 0, π, 0⟩ : CPState), 0) 2))) :=
  ⟨⟨by norm_num, by norm_num⟩,
   C2_rollout_returns_last_row ((⟨0, 0, π, 0⟩ : CPState), 0) 2
     (by norm_num) (by norm_num)⟩

/-! ### C3: `move_cart` with zero steps -/

/-- C3 (amended): for every initial pair, `move_cart` with `steps = 0` does
not return the initial pair: the loop that first binds `x_history` never
runs, so the final `len(x_history)` test raises an unbound-variable error. -/
theorem C3_zero_steps_fails (x0 : SA) :
    move_cart x0 0 = .error .nameError := rfl

/-- Counterexample to C3 as stated: at the down-hanging initial pair,
`move_cart` with `steps = 0` fails with the unbound-variable error instead of
succeeding with any value, in particular instead of returning the initial
pair. -/
theorem C3_counterexample :
    move_cart ((⟨0, 0, π, 0⟩ : CPState), 0) 0 = .error .nameError ∧
    ∀ r : MoveCartResult,
      move_cart ((⟨0, 0, π, 0⟩ : CPState), 0) 0 ≠ .ok r := by
  have h : move_cart ((⟨0, 0, π, 0⟩ : CPState), 0) 0 = .error .nameError := rfl
  exact ⟨h, fun r hr => by rw [h] at hr; exact Except.noConfusion hr⟩

/-! ### C10: the step-count-4 assertion -/

/-- C10: for every initial pair, `move_cart` with `steps = 4` fails with the
assertion error (the `assert steps != 4` guard runs before any integration
step), while every other positive step count is accepted and produces a
result. -/
theorem C10_four_steps_asserts (x0 : SA) (steps : ℕ)
    (h1 : 1 ≤ steps) (h4 : steps ≠ 4) :
    move_cart x0 4 = .error .assertionError ∧
    ∃ r : MoveCartResult, move_cart x0 steps = .ok r :=
  ⟨rfl, ⟨.row (mcRow x0 steps), move_cart_eq_row x0 steps h1 h4⟩⟩

/-- Witness for C10 at the down-hanging pair and `steps = 1`. -/
theorem C10_witness :
    (1 ≤ 1 ∧ (1 : ℕ) ≠ 4) ∧
    (move_cart ((⟨0, 0, π, 0⟩ : CPState), 0) 4 = .error .assertionError ∧
      ∃ r : MoveCartResult, move_cart ((⟨0, 0, π, 0⟩ : CPState), 0) 1 = .ok r) :=
  ⟨⟨le_refl 1, by norm_num⟩,
   C10_four_steps_asserts ((⟨0, 0, π, 0⟩ : CPState), 0) 1 (le_refl 1) (by norm_num)⟩

/-! ### Lemmas about `_remap_angle` -/

/-- The add-2π loop terminates: some iteration count makes the guard fail. -/
lemma remapUp_exists (θ : ℝ) : {n : ℕ | ¬ θ + 2 * π * n < -π}.Nonempty := by
  obtain ⟨n, hn⟩ := exists_nat_ge ((-π - θ) / (2 * π))
  have h2π : (0 : ℝ) < 2 * π := by positivity
  refine ⟨n, ?_⟩
  rw [Set.mem_setOf_eq, not_lt]
  have h := (div_le_iff₀ h2π).mp hn
  nlinarith

/-- The subtract-2π loop terminates. -/
lemma remapDown_exists (θ : ℝ) : {n : ℕ | ¬ θ - 2 * π * n > π}.Nonempty := by
  obtain ⟨n, hn⟩ := exists_nat_ge ((θ - π) / (2 * π))
  have h2π : (0 : ℝ) < 2 * π := by positivity
  refine ⟨n, ?_⟩
  rw [Set.mem_setOf_eq, not_lt]
  have h := (div_le_iff₀ h2π).mp hn
  nlinarith

/-- When the loop exits, the guard fails: the result is at least `-π`. -/
lemma remapUp_ge (θ : ℝ) : -π ≤ remapUp θ := by
  have h := Nat.sInf_mem (remapUp_exists θ)
  rw [Set.mem_setOf_eq, not_lt] at h
  exact h

/-- When the loop exits, the guard fails: the result is at most `π`. -/
lemma remapDown_le (θ : ℝ) : remapDown θ ≤ π := by
  have h := Nat.sInf_mem (remapDown_exists θ)
  rw [Set.mem_setOf_eq, not_lt] at h
  exact h

/-- If the guard fails at entry the add-2π loop runs zero times. -/
lemma remapUp_id (θ : ℝ) (h : -π ≤ θ) : remapUp θ = θ := by
  have h0 : remapUpCount θ = 0 := by
    rw [remapUpCount, Nat.sInf_eq_zero]
    left
    rw [Set.mem_setOf_eq, Nat.cast_zero, mul_zero, add_zero, not_lt]
    exact h
  rw [remapUp, h0, Nat.cast_zero, mul_zero, add_zero]

/-- If the guard fails at entry the subtract-2π loop runs zero times. -/
lemma remapDown_id (θ : ℝ) (h : θ ≤ π) : remapDown θ = θ := by
  have h0 : remapDownCount θ = 0 := by
    rw [remapDownCount, Nat.sInf_eq_zero]
    left
    rw [Set.mem_setOf_eq, Nat.cast_zero, mul_zero, sub_zero, not_lt]
    exact h
  rw [remapDown, h0, Nat.cast_zero, mul_zero, sub_zero]

/-- Minimality of the exit count: if the add-2π loop runs at all, it stops
strictly below `π` (the previous iterate was still below `-π`). -/
lemma remapUp_lt (θ : ℝ) (h : θ < -π) : remapUp θ < π := by
  have hc : remapUpCount θ ≠ 0 := by
    intro h0
    have := remapUp_ge θ
    rw [remapUp, h0, Nat.cast_zero, mul_zero, add_zero] at this
    linarith
  have h1 : 1 ≤ remapUpCount θ := Nat.one_le_iff_ne_zero.mpr hc
  have h2 : remapUpCount θ - 1 ∉ {n : ℕ | ¬ θ + 2 * π * n < -π} := by
    apply Nat.not_mem_of_lt_sInf
    rw [← remapUpCount]
    omega
  rw [Set.mem_setOf_eq, not_not] at h2
  have hcast : ((remapUpCount θ - 1 : ℕ) : ℝ) = (remapUpCount θ : ℝ) - 1 := by
    push_cast [h1]
    ring
  rw [hcast] at h2
  rw [remapUp]
  linarith

/-- Minimality of the exit count: if the subtract-2π loop runs at all, it
stops strictly above `-π`. -/
lemma remapDown_gt (θ : ℝ) (h : π < θ) : -π < remapDown θ := by
  have hc : remapDownCount θ ≠ 0 := by
    intro h0
    have := remapDown_le θ
    rw [remapDown, h0, Nat.cast_zero, mul_zero, sub_zero] at this
    linarith
  have h1 : 1 ≤ remapDownCount θ := Nat.one_le_iff_ne_zero.mpr hc
  have h2 : remapDownCount θ - 1 ∉ {n : ℕ | ¬ θ - 2 * π * n > π} := by
    apply Nat.not_mem_of_lt_sInf
    rw [← remapDownCount]
    omega
  rw [Set.mem_setOf_eq, not_not] at h2
  have hcast : ((remapDownCount θ - 1 : ℕ) : ℝ) = (remapDownCount θ : ℝ) - 1 := by
    push_cast [h1]
    ring
  rw [hcast] at h2
  rw [remapDown]
  linarith

/-- The normalizer always lands in the closed interval `[-π, π]`. -/
lemma remapAngle_mem (θ : ℝ) : -π ≤ remapAngle θ ∧ remapAngle θ ≤ π := by
  rcases le_or_lt (-π) θ with h | h
  · rw [remapAngle, remapUp_id θ h]
    rcases le_or_lt θ π with h2 | h2
    · rw [remapDown_id θ h2]
      exact ⟨h, h2⟩
    · exact ⟨le_of_lt (remapDown_gt θ h2), remapDown_le θ⟩
  · have h1 : -π ≤ remapUp θ := remapUp_ge θ
    have h2 : remapUp θ < π := remapUp_lt θ h
    rw [remapAngle, remapDown_id _ h2.le]
    exact ⟨h1, h2.le⟩

/-- The normalizer only ever adds or subtracts whole periods. -/
lemma remapAngle_sub_int (θ : ℝ) :
    ∃ z : ℤ, remapAngle θ = θ + 2 * π * z := by
  refine ⟨(remapUpCount θ : ℤ) - remapDownCount (remapUp θ), ?_⟩
  rw [remapAngle, remapDown, remapUp]
  push_cast
  ring

/-- Away from the congruence class of `π` modulo `2π`, the normalizer never
returns either endpoint of `[-π, π]`. -/
lemma remapAngle_ne_boundary (θ : ℝ) (h : ∀ j : ℤ, θ ≠ π + 2 * π * j) :
    remapAngle θ ≠ π ∧ remapAngle θ ≠ -π := by
  obtain ⟨z, hz⟩ := remapAngle_sub_int θ
  constructor
  · intro he
    apply h (-z)
    rw [he] at hz
    push_cast
    linarith
  · intro he
    apply h (-1 - z)
    rw [he] at hz
    push_cast
    linarith

/-! ### C4: periodicity of the angle normalizer -/

/-- C4 (amended): for every real `theta` that is not congruent to `π` modulo
`2π` and every integer `k`, `_remap_angle(theta + 2π k) = _remap_angle(theta)`.
On the boundary class the identity fails: `_remap_angle` sends `-π` to `-π`
but `π` to `π`. -/
theorem C4_remap_periodic (θ : ℝ) (k : ℤ) (h : ∀ j : ℤ, θ ≠ π + 2 * π * j) :
    remapAngle (θ + 2 * π * k) = remapAngle θ := by
  obtain ⟨z1, hz1⟩ := remapAngle_sub_int θ
  obtain ⟨z2, hz2⟩ := remapAngle_sub_int (θ + 2 * π * k)
  have h' : ∀ j : ℤ, θ + 2 * π * k ≠ π + 2 * π * j := by
    intro j hj
    apply h (j - k)
    push_cast
    linarith
  have hb1 := remapAngle_ne_boundary θ h
  have hb2 := remapAngle_ne_boundary _ h'
  have hm1 := remapAngle_mem θ
  have hm2 := remapAngle_mem (θ + 2 * π * k)
  have hs1a : -π < remapAngle θ := lt_of_le_of_ne hm1.1 (Ne.symm hb1.2)
  have hs1b : remapAngle θ < π := lt_of_le_of_ne hm1.2 hb1.1
  have hs2a : -π < remapAngle (θ + 2 * π * k) := lt_of_le_of_ne hm2.1 (Ne.symm hb2.2)
  have hs2b : remapAngle (θ + 2 * π * k) < π := lt_of_le_of_ne hm2.2 hb2.1
  have hπ := Real.pi_pos
  have hdiff : remapAngle (θ + 2 * π * k) - remapAngle θ =
      2 * π * ((z2 + k - z1 : ℤ) : ℝ) := by
    rw [hz1, hz2]
    push_cast
    ring
  have hw : (z2 + k - z1 : ℤ) = 0 := by
    by_contra hw0
    have h1 : (1 : ℝ) ≤ |((z2 + k - z1 : ℤ) : ℝ)| := by
      rw [← Int.cast_abs]
      exact_mod_cast Int.one_le_abs hw0
    have habs : |remapAngle (θ + 2 * π * k) - remapAngle θ| < 2 * π := by
      rw [abs_lt]
      constructor <;> linarith
    rw [hdiff, abs_mul, abs_of_pos (by positivity : (0:ℝ) < 2 * π)] at habs
    nlinarith
  rw [hw] at hdiff
  push_cast at hdiff
  linarith

/-- Counterexample to C4 as stated: at the boundary, `theta = π` with
`k = -1` gives `_remap_angle(π - 2π) = _remap_angle(-π) = -π`, while
`_remap_angle(π) = π`, and `-π ≠ π`. -/
theorem C4_counterexample :
    remapAngle (π + 2 * π * ((-1 : ℤ) : ℝ)) ≠ remapAngle π := by
  have hπ := Real.pi_pos
  have h1 : remapAngle π = π := by
    rw [remapAngle, remapUp_id π (by linarith), remapDown_id π le_rfl]
  have harg : π + 2 * π * ((-1 : ℤ) : ℝ) = -π := by
    push_cast
    ring
  have h2 : remapAngle (π + 2 * π * ((-1 : ℤ) : ℝ)) = -π := by
    rw [harg, remapAngle, remapUp_id _ le_rfl, remapDown_id _ (by linarith)]
  rw [h1, h2]
  intro he
  have : π = 0 := by linarith
  exact Real.pi_ne_zero this

/-- Witness for C4 (amended) at `theta = 0`, `k = 1`. -/
theorem C4_witness :
    (∀ j : ℤ, (0 : ℝ) ≠ π + 2 * π * j) ∧
    remapAngle (0 + 2 * π * ((1 : ℤ) : ℝ)) = remapAngle 0 := by
  have h : ∀ j : ℤ, (0 : ℝ) ≠ π + 2 * π * j := by
    intro j hj
    have h2 : π * (1 + 2 * (j : ℝ)) = 0 := by linarith
    rcases mul_eq_zero.mp h2 with h3 | h3
    · exact Real.pi_ne_zero h3
    · have h4 : (1 + 2 * j : ℤ) = 0 := by exact_mod_cast h3
      omega
  exact ⟨h, C4_remap_periodic 0 1 h⟩

/-! ### C1: one zero-force call from (0, 0, 3.0, 0)

The pole starts at 3.0 rad, between π/2 and π, so gravity torques it toward
the hanging position and — through the coupling term `-3 m g cos sin` — also
accelerates the cart.  The following interval bounds track all four state
components through the fifty substeps. -/

/-- Bounds on sine and cosine over the angle window `[3, 3.0175]` reached
during the 50 zero-force substeps from angle 3.0: writing `y = π - θ`,
`y` lies in `[0.124092, 0.141593]`, whence the stated enclosures. -/
lemma c1_sin_cos_bounds {θ : ℝ} (h1 : 3 ≤ θ) (h2 : θ ≤ 1207 / 400) :
    123 / 1000 ≤ Real.sin θ ∧ Real.sin θ ≤ 142 / 1000 ∧
    Real.cos θ ≤ -(49 / 50) ∧ -1 ≤ Real.cos θ := by
  have hπ1 : (3.141592 : ℝ) < π := Real.pi_gt_d6
  have hπ2 : π < 3.141593 := Real.pi_lt_d6
  have hπ1' : (3141592 / 1000000 : ℝ) < π := by norm_num at hπ1 ⊢; linarith
  have hπ2' : π < 3141593 / 1000000 := by norm_num at hπ2 ⊢; linarith
  have hy1 : (0 : ℝ) < π - θ := by linarith
  have hy2 : π - θ ≤ 141593 / 1000000 := by linarith
  have hy3 : 124092 / 1000000 ≤ π - θ := by linarith
  have hy4 : π - θ ≤ 1 := by linarith
  have hs_eq : Real.sin (π - θ) = Real.sin θ := Real.sin_pi_sub θ
  have hs_hi : Real.sin (π - θ) < π - θ := Real.sin_lt hy1
  have hs_lo : (π - θ) - (π - θ) ^ 3 / 4 < Real.sin (π - θ) :=
    Real.sin_gt_sub_cube hy1 hy4
  have hcube : (π - θ) ^ 3 ≤ (141593 / 1000000 : ℝ) ^ 3 :=
    pow_le_pow_left₀ hy1.le hy2 3
  have hc_eq : Real.cos (π - θ) = -Real.cos θ := Real.cos_pi_sub θ
  have hc_lo : 1 - (π - θ) ^ 2 / 2 ≤ Real.cos (π - θ) :=
    Real.one_sub_sq_div_two_le_cos
  have hsq : (π - θ) ^ 2 ≤ (141593 / 1000000 : ℝ) ^ 2 :=
    pow_le_pow_left₀ hy1.le hy2 2
  refine ⟨?_, ?_, ?_, ?_⟩
  · rw [← hs_eq]
    nlinarith
  · rw [← hs_eq]
    nlinarith
  · rw [hc_eq] at hc_lo
    nlinarith
  · exact Real.neg_one_le_cos θ

/-- The substep length is exactly `0.05 / 50 = 1/1000`. -/
lemma dt_eq : dt = 1 / 1000 := by
  rw [dt, delta_time, sim_steps]
  norm_num

/-- Enclosure of the zero-force cart acceleration while the state stays in
the window reached from (0, 0, 3.0, 0): the reaction of the falling pole
pushes the cart with acceleration between 0.4 and 0.9. -/
lemma c1_cart_accel_bounds (st : CPState)
    (hv0 : 0 ≤ st.cart_velocity) (hv1 : st.cart_velocity ≤ 9 / 200)
    (hw0 : 0 ≤ st.pole_velocity) (hw1 : st.pole_velocity ≤ 7 / 20)
    (ht0 : 3 ≤ st.pole_angle) (ht1 : st.pole_angle ≤ 1207 / 400) :
    2 / 5 ≤ cart_accel 0 st ∧ cart_accel 0 st ≤ 9 / 10 := by
  obtain ⟨hs1, hs2, hc2, hc1⟩ := c1_sin_cos_bounds ht0 ht1
  have hs0 : (0 : ℝ) ≤ Real.sin st.pole_angle := by linarith
  have hcsq : Real.cos st.pole_angle ^ 2 ≤ 1 := by nlinarith
  have hmpos : (0 : ℝ) <
      4.0 * (cart_mass + pole_mass) - 3.0 * pole_mass * (Real.cos st.pole_angle) ^ 2 := by
    simp only [cart_mass, pole_mass]
    nlinarith
  have hw2s0 : 0 ≤ st.pole_velocity ^ 2 * Real.sin st.pole_angle :=
    mul_nonneg (sq_nonneg _) hs0
  have hw2s_hi : st.pole_velocity ^ 2 * Real.sin st.pole_angle ≤
      (7 / 20) ^ 2 * (142 / 1000) := by
    have hwsq : st.pole_velocity ^ 2 ≤ (7 / 20) ^ 2 := by nlinarith
    nlinarith
  have hcs_hi : Real.cos st.pole_angle * Real.sin st.pole_angle ≤
      -(49 / 50) * (123 / 1000) := by nlinarith
  have hcs_lo : -(142 / 1000) ≤ Real.cos st.pole_angle * Real.sin st.pole_angle := by
    nlinarith
  unfold cart_accel
  constructor
  · rw [le_div_iff₀ hmpos]
    simp only [pole_length, pole_mass, mu_c, gravity, cart_mass]
    nlinarith [sq_nonneg (Real.cos st.pole_angle)]
  · rw [div_le_iff₀ hmpos]
    simp only [pole_length, pole_mass, mu_c, gravity, cart_mass]
    nlinarith

/-- Enclosure of the zero-force pole acceleration on the same window:
gravity swings the pole toward π with angular acceleration between 3.5 and
7. -/
lemma c1_pole_accel_bounds (st : CPState)
    (hv0 : 0 ≤ st.cart_velocity) (hv1 : st.cart_velocity ≤ 9 / 200)
    (hw0 : 0 ≤ st.pole_velocity) (hw1 : st.pole_velocity ≤ 7 / 20)
    (ht0 : 3 ≤ st.pole_angle) (ht1 : st.pole_angle ≤ 1207 / 400) :
    7 / 2 ≤ pole_accel 0 st ∧ pole_accel 0 st ≤ 7 := by
  obtain ⟨hs1, hs2, hc2, hc1⟩ := c1_sin_cos_bounds ht0 ht1
  have hs0 : (0 : ℝ) ≤ Real.sin st.pole_angle := by linarith
  have hcsq : Real.cos st.pole_angle ^ 2 ≤ 1 := by nlinarith
  have hmpos : (0 : ℝ) <
      4.0 * (cart_mass + pole_mass) - 3.0 * pole_mass * (Real.cos st.pole_angle) ^ 2 := by
    simp only [cart_mass, pole_mass]
    nlinarith
  have h3c0 : (0 : ℝ) ≤ -3 * Real.cos st.pole_angle := by linarith
  have hw2s0 : 0 ≤ st.pole_velocity ^ 2 * Real.sin st.pole_angle :=
    mul_nonneg (sq_nonneg _) hs0
  have hw2s_hi : st.pole_velocity ^ 2 * Real.sin st.pole_angle ≤
      (7 / 20) ^ 2 * (142 / 1000) := by
    have hwsq : st.pole_velocity ^ 2 ≤ (7 / 20) ^ 2 := by nlinarith
    nlinarith
  have hinner_lb : -(45 / 1000000) ≤
      1 / 8 * (st.pole_velocity ^ 2 * Real.sin st.pole_angle)
        - 1 / 1000 * st.cart_velocity := by linarith
  have hinner_ub :
      1 / 8 * (st.pole_velocity ^ 2 * Real.sin st.pole_angle)
        - 1 / 1000 * st.cart_velocity ≤ 87 / 40000 := by nlinarith
  have hp1 := mul_le_mul_of_nonneg_left hinner_lb h3c0
  have hp2 := mul_le_mul_of_nonneg_left hinner_ub h3c0
  unfold pole_accel
  constructor
  · rw [le_div_iff₀ hmpos]
    simp only [pole_length, pole_mass, mu_c, mu_p, gravity, cart_mass]
    nlinarith [sq_nonneg (Real.cos st.pole_angle)]
  · rw [div_le_iff₀ hmpos]
    simp only [pole_length, pole_mass, mu_c, mu_p, gravity, cart_mass]
    nlinarith


set_option maxHeartbeats 2000000 in
/-- One zero-force substep preserves the invariant (for the first fifty
substeps). -/
lemma C1Inv_step (k : ℕ) (hk : k ≤ 49) (st : CPState) (h : C1Inv k st) :
    C1Inv (k + 1) (eulerSubstep 0 st) := by
  obtain ⟨hx, hv1, hv2, ht1, ht2, hw1, hw2⟩ := h
  push_cast at hx ht1
  have hkR : (k : ℝ) ≤ 49 := by exact_mod_cast hk
  have hk0 : (0 : ℝ) ≤ (k : ℝ) := Nat.cast_nonneg k
  have hkk0 : (0 : ℝ) ≤ (k : ℝ) * ((k : ℝ) + 1) := by positivity
  have hv0 : 0 ≤ st.cart_velocity := le_trans (by positivity) hv1
  have hw0 : 0 ≤ st.pole_velocity := le_trans (by positivity) hw1
  have hv1' : st.cart_velocity ≤ 9 / 200 := by nlinarith
  have hw1' : st.pole_velocity ≤ 7 / 20 := by nlinarith
  have ht0' : 3 ≤ st.pole_angle := by linarith
  have ht1' : st.pole_angle ≤ 1207 / 400 := by nlinarith
  obtain ⟨hca1, hca2⟩ := c1_cart_accel_bounds st hv0 hv1' hw0 hw1' ht0' ht1'
  obtain ⟨hpa1, hpa2⟩ := c1_pole_accel_bounds st hv0 hv1' hw0 hw1' ht0' ht1'
  refine ⟨?_, ?_, ?_, ?_, ?_, ?_, ?_⟩ <;>
    simp only [eulerSubstep, dt_eq] <;> push_cast <;> nlinarith

/-- The invariant holds after `k ≤ 50` zero-force substeps from
(0, 0, 3.0, 0). -/
lemma C1Inv_iterate (k : ℕ) (hk : k ≤ 50) :
    C1Inv k ((eulerSubstep 0)^[k] (⟨0, 0, 3, 0⟩ : CPState)) := by
  induction k with
  | zero => norm_num [C1Inv]
  | succ k ih =>
    rw [Function.iterate_succ_apply']
    exact C1Inv_step k (by omega) _ (ih (by omega))

/-- The invariant, instantiated after the full `performAction 0` call. -/
lemma c1_final : C1Inv 50 (performAction (⟨0, 0, 3, 0⟩ : CPState) 0) := by
  rw [performAction_zero]
  exact C1Inv_iterate 50 le_rfl

/-- Counterexample to C1 as stated: after one zero-force `performAction`
call from (0, 0, 3.0, 0) with the default constants, `cart_velocity` is not
0 — the falling pole's reaction accelerates the cart, so its velocity ends
at least 0.02. -/
theorem C1_counterexample :
    (performAction (⟨0, 0, 3, 0⟩ : CPState) 0).cart_velocity ≠ 0 := by
  obtain ⟨-, hv1, -, -, -, -, -⟩ := c1_final
  intro h
  rw [h] at hv1
  norm_num at hv1

/-- C1 (amended): after one `performAction(0)` call from (0, 0, 3.0, 0) with
the default constants, pole_angle and pole_velocity change from their initial
values as claimed, but cart_location and cart_velocity do not stay 0: all
four components end strictly greater than their initial values. -/
theorem C1_all_components_move :
    0 < (performAction (⟨0, 0, 3, 0⟩ : CPState) 0).cart_location ∧
    0 < (performAction (⟨0, 0, 3, 0⟩ : CPState) 0).cart_velocity ∧
    3 < (performAction (⟨0, 0, 3, 0⟩ : CPState) 0).pole_angle ∧
    0 < (performAction (⟨0, 0, 3, 0⟩ : CPState) 0).pole_velocity := by
  obtain ⟨hx, hv, -, ht, -, hw, -⟩ := c1_final
  push_cast at hx ht
  refine ⟨by nlinarith, by nlinarith, by nlinarith, by nlinarith⟩
